import Mathlib

/-!
Verification of the Mantle Live collaborative-state synchronization core
described in `mantle-live-behavior-v2.md`: the Loro-backed document model,
the bidirectional MobX-Loro binding installed by `setupSync`, broadcasts,
the relay connection opened by `openConnection`, and the synced collection
API.  Definitions follow the `LiveBehavior` class in that file; parts whose
implementation is the external `loro-crdt` primitive (the register merge,
the movable-list reposition) are modelled from the spec and marked so.
-/

namespace MantleLive

/-- Scalar values held by synced fields and Loro registers.  `vUndefined` stands
for JavaScript `undefined` (what `rootMap.get(key)` returns for an absent
key). -/
inductive LiveValue where
  | vUndefined : LiveValue
  | vNum (n : Int) : LiveValue
  | vStr (s : String) : LiveValue
  | vBool (b : Bool) : LiveValue
deriving DecidableEq, Repr

/-- One last-writer-wins register of a Loro map, carrying the per-operation
timestamp/author metadata that drives the deterministic merge tie-break. -/
structure Register where
  value : LiveValue
  ts : Nat
  author : Nat
deriving DecidableEq, Repr

/-- An atomic change to the Document: target key, payload, origin tag, and
the timestamp+author identity used by the merge tie-break. -/
structure Operation where
  key : String
  value : LiveValue
  origin : String
  ts : Nat
  author : Nat
deriving DecidableEq, Repr

/-- The Loro root map (`doc.getMap('root')`): keys to registers. -/
abbrev DocMap : Type := String → Option Register

/-- Modelled from the spec: the deterministic tie-break of the replicated
register ("concurrent writes to the same scalar converge via a deterministic
tie-break such as operation timestamp+author").  The merge algorithm itself
is the external `loro-crdt` primitive, not code of this repository. -/
def newer (t1 a1 t2 a2 : Nat) : Prop := t2 < t1 ∨ (t1 = t2 ∧ a2 < a1)

instance (t1 a1 t2 a2 : Nat) : Decidable (newer t1 a1 t2 a2) := by
  unfold newer; infer_instance

/-- Modelled from the spec: merging one Operation into the document (what
`doc.import` does per register): the register updates exactly when the
incoming operation is strictly newer under the timestamp+author tie-break. -/
def importOp (m : DocMap) (op : Operation) : DocMap := fun k =>
  if k = op.key then
    match m op.key with
    | none => some ⟨op.value, op.ts, op.author⟩
    | some r =>
      if newer op.ts op.author r.ts r.author then some ⟨op.value, op.ts, op.author⟩
      else some r
  else m k

/-- Merging a batch of Operations in arrival order. -/
def importOps (m : DocMap) (ops : List Operation) : DocMap := ops.foldl importOp m

/-- CRDT well-formedness of an operation pair: the timestamp+author pair
identifies an operation on a given key (each author stamps its operations
with a strictly increasing clock, so distinct operations never share
both). -/
def opsCompatible (o1 o2 : Operation) : Prop :=
  o1.key = o2.key → o1.ts = o2.ts → o1.author = o2.author → o1 = o2

instance (o1 o2 : Operation) : Decidable (opsCompatible o1 o2) := by
  unfold opsCompatible; infer_instance

/-- Two concurrent remote writes to the same register by different authors. -/
def opA : Operation := ⟨"current", .vNum 1, "remote", 3, 1⟩

def opB : Operation := ⟨"current", .vNum 2, "remote", 3, 2⟩

/-- The empty document. -/
def emptyDoc : DocMap := fun _ => none

/-- The component's observable fields (the MobX layer).  Absent fields read
as JavaScript `undefined`. -/
abbrev HostState : Type := String → LiveValue

/-- `rootMap.get(key)`: the register's value, or `undefined` when the key is
absent. -/
def docGet (m : DocMap) (k : String) : LiveValue :=
  match m k with
  | some r => r.value
  | none => .vUndefined

/-- Per-field schema entry produced by `extractLiveSchema`: the marker's
default value and its `shared` / `transient` options. -/
structure FieldSpec where
  defaultValue : LiveValue
  shared : Bool
  transient : Bool
deriving DecidableEq, Repr

/-- `schema.fields` as a keyed association list. -/
abbrev LiveFields : Type := List (String × FieldSpec)

/-- A declared broadcast: its key and the raw handler stored by
`wrapBroadcast`; the handler mutates host fields from the received arguments
(`handler.apply(this.host, args)`). -/
structure BroadcastDecl where
  key : String
  handler : List LiveValue → HostState → HostState

/-- The two wire message kinds multiplexed on the relay connection. -/
inductive WireMsg where
  | loroSnapshot (ops : List Operation) : WireMsg
  | broadcastMsg (key : String) (args : List LiveValue) : WireMsg

/-- The state a `LiveBehavior` owns around its document: the host's
observable fields, the Loro root map, the operation log, the messages it has
sent on the WebSocket (`outbox`), the connection and permission flags, and
the author's clock / peer id used to stamp operations. -/
@[ext]
structure SyncState where
  host : HostState
  rootMap : DocMap
  log : List Operation
  outbox : List WireMsg
  connected : Bool
  isReadOnly : Bool
  clock : Nat
  author : Nat

/-- The commit origin of a local write: `transient` fields commit after
`doc.setNextCommitOrigin('transient')`; all other local commits carry the
`local` origin that the document subscriber filters on. -/
def commitOrigin (spec : FieldSpec) : String :=
  if spec.transient then "transient" else "local"

/-- The document subscriber installed by `setupSync` (Loro to MobX): for
every schema field, write the merged root-map value into the host field. -/
def docSubscriber (schema : LiveFields) (s : SyncState) : SyncState :=
  { s with
    host := fun k => if (schema.lookup k).isSome then docGet s.rootMap k else s.host k }

/-- The document-side effect of `rootMap.set(key, host[key]); doc.commit()`:
one fresh register write and one appended operation carrying `origin`. -/
def commitState (s : SyncState) (key : String) (origin : String) : SyncState :=
  { s with
    rootMap := fun k =>
      if k = key then some ⟨s.host key, s.clock, s.author⟩ else s.rootMap k,
    log := s.log ++ [⟨key, s.host key, origin, s.clock, s.author⟩],
    clock := s.clock + 1 }

/-- The body of the per-field write reaction `setupSync` installs (MobX to
Loro): return early when the root map already holds the host's value,
otherwise commit one operation with the field's origin.  A commit whose
origin is not `local` re-triggers the document subscriber (the subscriber
skips only `event.origin === 'local'`). -/
def syncReaction (schema : LiveFields) (s : SyncState) (key : String) : SyncState :=
  match schema.lookup key with
  | none => s
  | some spec =>
    if docGet s.rootMap key = s.host key then s
    else if commitOrigin spec = "local" then commitState s key (commitOrigin spec)
    else docSubscriber schema (commitState s key (commitOrigin spec))

/-- A local write `this[key] = v`: the MobX assignment itself (immediately
visible to the rendering layer), then the `setupSync` reaction. -/
def localWrite (schema : LiveFields) (s : SyncState) (key : String) (v : LiveValue) :
    SyncState :=
  syncReaction schema { s with host := fun k => if k = key then v else s.host k } key

/-- `ws.onmessage`, `data.type === 'loro'` branch: `doc.import(payload,
'remote')` merges the batch, recording it under the `remote` origin; the
document subscriber then writes the merged values back into host fields. -/
def applyRemote (schema : LiveFields) (s : SyncState) (ops : List Operation) : SyncState :=
  let tagged := ops.map fun o => { o with origin := "remote" }
  docSubscriber schema
    { s with rootMap := importOps s.rootMap tagged, log := s.log ++ tagged }

/-- The wrapped function `wrapBroadcast` returns: run the raw handler against
local state, then send one serialized message if and only if the socket is
open. -/
def invokeBroadcast (handlers : List BroadcastDecl) (s : SyncState) (key : String)
    (args : List LiveValue) : SyncState :=
  match handlers.find? fun d => d.key == key with
  | none => s
  | some d =>
    let s1 := { s with host := d.handler args s.host }
    if s1.connected then { s1 with outbox := s1.outbox ++ [.broadcastMsg key args] }
    else s1

/-- `ws.onmessage`: a `loro` message is imported into the document; a
`broadcast` message calls the raw stored handler directly and is never
re-sent. -/
def handleMessage (schema : LiveFields) (handlers : List BroadcastDecl) (s : SyncState)
    (msg : WireMsg) : SyncState :=
  match msg with
  | .loroSnapshot ops => applyRemote schema s ops
  | .broadcastMsg key args =>
    match handlers.find? fun d => d.key == key with
    | none => s
    | some d => { s with host := d.handler args s.host }

/-- String prefix test, spelled over the character list so it evaluates. -/
def strHasPrefix (p s : String) : Bool := p.data.isPrefixOf s.data

/-- `new UndoManager(doc, { excludeOriginPrefixes: ['transient', 'remote'] })`:
an operation is visible to the undo stack exactly when its origin starts with
neither excluded string. -/
def originExcluded (origin : String) : Bool :=
  strHasPrefix "transient" origin || strHasPrefix "remote" origin

/-- The operation `undo()` reverses next: the most recently logged operation
whose origin is not excluded. -/
def undoTarget (log : List Operation) : Option Operation :=
  log.reverse.find? fun o => ! originExcluded o.origin

/-- The relay's per-room state: the persisted document operations and the
broadcast messages it has relayed (never persisted). -/
structure RelayState where
  docOps : List Operation
  relayed : List WireMsg

/-- The relay persists a document operation at most once: importing an
already-known operation is the identity (idempotent merge). -/
def mergeIn (log : List Operation) (o : Operation) : List Operation :=
  if o ∈ log then log else log ++ [o]

/-- The relay importing a full-document snapshot. -/
def relayImport (r : RelayState) (ops : List Operation) : RelayState :=
  { r with docOps := ops.foldl mergeIn r.docOps }

/-- `ws.onopen` after (re)connect: mark `connected` and send the whole
document (`doc.export({ mode: 'snapshot' })`) — the document itself is the
buffer of operations issued while offline — which the relay merges. -/
def reconnect (s : SyncState) (r : RelayState) : SyncState × RelayState :=
  ({ s with connected := true, outbox := s.outbox ++ [.loroSnapshot s.log] },
    relayImport r s.log)

/-- The `withLive` configuration record. -/
structure LiveConfig where
  server : Option String
deriving DecidableEq, Repr

/-- The host component props that `openConnection` reads. -/
structure HostProps where
  docId : Option String
deriving DecidableEq, Repr

/-- `openConnection`: `this.config.server ?? 'ws://localhost:1999'`. -/
def connectionServer (config : LiveConfig) : String :=
  config.server.getD "ws://localhost:1999"

/-- `openConnection`: `props.docId ?? crypto.randomUUID()`; `freshUuid` is
the UUID the generator returns at this call. -/
def connectionDocId (props : HostProps) (freshUuid : String) : String :=
  props.docId.getD freshUuid

/-- The WebSocket URL `openConnection` dials: server, the party path, and the
room id. -/
def connectionUrl (config : LiveConfig) (props : HostProps) (freshUuid : String) : String :=
  connectionServer config ++ "/parties/main/" ++ connectionDocId props freshUuid

/-- One identity-bearing element of a synced collection: the stable id and
its sub-document contents. -/
structure LiveEntry where
  id : String
  sub : List (String × LiveValue)
deriving DecidableEq, Repr

/-- The operations a `SyncedComponents` collection can emit on its underlying
`LoroMovableList`. -/
inductive CollOp where
  | insertAt (idx : Nat) (entry : LiveEntry) : CollOp
  | removeAt (idx : Nat) : CollOp
  | reposition (fromIdx toIdx : Nat) : CollOp
deriving DecidableEq, Repr

/-- Modelled from the spec: `move(fromIndex, toIndex)` emits a single
reposition Operation on the underlying ordered-list type (`LoroMovableList`'s
native move) and carries the entry value over unchanged.  The
`SyncedComponents` implementation itself is only declared, not included, in
the repository sources. -/
def moveEntry (l : List LiveEntry) (fromIdx toIdx : Nat) :
    List LiveEntry × List CollOp :=
  match l[fromIdx]? with
  | none => (l, [])
  | some e => ((l.eraseIdx fromIdx).insertIdx toIdx e, [.reposition fromIdx toIdx])

/-- The HpTracker-style schema used in concrete scenarios: an owner-only
undoable field, a shared field, and a transient (undo-excluded) field. -/
def hpSchema : LiveFields :=
  [("current", ⟨.vNum 45, false, false⟩),
   ("name", ⟨.vStr "Unnamed", true, false⟩),
   ("round", ⟨.vNum 1, false, true⟩)]

/-- A freshly created root state: empty document, socket open, owner. -/
def s0 : SyncState :=
  { host := fun _ => .vUndefined, rootMap := emptyDoc, log := [], outbox := [],
    connected := true, isReadOnly := false, clock := 0, author := 7 }

/-- The same state while the connection is down. -/
def sOffline : SyncState := { s0 with connected := false }

/-- A viewer's state: `isReadOnly = true`. -/
def sViewer : SyncState := { s0 with isReadOnly := true }

/-- A concrete broadcast declaration: `ping` stores its first argument in the
host field `lastPing`. -/
def pingDecl : BroadcastDecl :=
  ⟨"ping", fun args host => fun k => if k = "lastPing" then args.headD .vUndefined else host k⟩

def hpHandlers : List BroadcastDecl := [pingDecl]

def entryA : LiveEntry := ⟨"a", [("current", .vNum 85)]⟩

def entryB : LiveEntry := ⟨"b", [("current", .vNum 120)]⟩

def entryC : LiveEntry := ⟨"c", [("current", .vNum 45)]⟩

/-- A previously committed local operation, sitting in a concrete log. -/
def cOp : Operation := ⟨"current", .vNum 5, "local", 0, 7⟩

/-- A relay room with nothing persisted yet. -/
def emptyRelay : RelayState := ⟨[], []⟩

theorem opsCompatible_symm {o1 o2 : Operation} (h : opsCompatible o1 o2) :
    opsCompatible o2 o1 := fun hk ht ha => (h hk.symm ht.symm ha.symm).symm

theorem newer_irrefl (t a : Nat) : ¬ newer t a t a := by unfold newer; omega

theorem newer_asymm {t1 a1 t2 a2 : Nat} (h : newer t1 a1 t2 a2) :
    ¬ newer t2 a2 t1 a1 := by unfold newer at *; omega

theorem newer_trans {t1 a1 t2 a2 t3 a3 : Nat} (h1 : newer t1 a1 t2 a2)
    (h2 : newer t2 a2 t3 a3) : newer t1 a1 t3 a3 := by unfold newer at *; omega

theorem newer_total {t1 a1 t2 a2 : Nat} (h1 : ¬ newer t1 a1 t2 a2)
    (h2 : ¬ newer t2 a2 t1 a1) : t1 = t2 ∧ a1 = a2 := by unfold newer at *; omega

/-- Merging two compatible operations commutes. -/
theorem importOp_comm {o1 o2 : Operation} (hwf : opsCompatible o1 o2) (m : DocMap) :
    importOp (importOp m o1) o2 = importOp (importOp m o2) o1 := by
  funext k
  by_cases h1 : k = o1.key
  · subst h1
    by_cases h2 : o1.key = o2.key
    · -- same target key: the LWW tie-break decides, independent of order
      simp only [importOp, h2, if_pos rfl]
      rw [← h2]
      cases hm : m o1.key with
      | none =>
        simp only
        by_cases h12 : newer o1.ts o1.author o2.ts o2.author
        · simp [h12, newer_asymm h12]
        · by_cases h21 : newer o2.ts o2.author o1.ts o1.author
          · simp [h12, h21]
          · obtain ⟨ht, ha⟩ := newer_total h12 h21
            have : o1 = o2 := hwf h2 ht ha
            simp [this]
      | some r =>
        simp only
        by_cases h1r : newer o1.ts o1.author r.ts r.author
        · by_cases h2r : newer o2.ts o2.author r.ts r.author
          · by_cases h21 : newer o2.ts o2.author o1.ts o1.author
            · simp [h1r, h2r, h21, newer_asymm h21]
            · by_cases h12 : newer o1.ts o1.author o2.ts o2.author
              · simp [h1r, h2r, h21, h12]
              · obtain ⟨ht, ha⟩ := newer_total h12 h21
                have : o1 = o2 := hwf h2 ht ha
                simp [this]
          · have h21 : ¬ newer o2.ts o2.author o1.ts o1.author :=
              fun h => h2r (newer_trans h h1r)
            simp [h1r, h2r, h21]
        · by_cases h2r : newer o2.ts o2.author r.ts r.author
          · have h12 : ¬ newer o1.ts o1.author o2.ts o2.author :=
              fun h => h1r (newer_trans h h2r)
            simp [h1r, h2r, h12]
          · simp [h1r, h2r]
    · -- k = o1.key, distinct target keys
      have h2' : o2.key ≠ o1.key := fun h => h2 h.symm
      simp [importOp, h2, h2']
  · by_cases h2 : k = o2.key
    · subst h2
      have h1' : o2.key ≠ o1.key := fun h => h1 h
      have h1'' : o1.key ≠ o2.key := fun h => h1' h.symm
      simp [importOp, h1', h1'']
    · simp [importOp, h1, h2]

/-- Re-merging an operation that the document already incorporates is the
identity. -/
theorem importOp_idem (d : DocMap) (o : Operation) :
    importOp (importOp d o) o = importOp d o := by
  funext k
  by_cases hk : k = o.key
  · subst hk
    simp only [importOp, if_pos rfl]
    cases hm : d o.key with
    | none => simp [newer_irrefl]
    | some r =>
      by_cases hor : newer o.ts o.author r.ts r.author
      · simp [hor, newer_irrefl]
      · simp [hor]
  · simp [importOp, hk]

/-- Replaying a pairwise-compatible operation batch in any other arrival
order produces the same document. -/
theorem importOps_perm {ops1 ops2 : List Operation} (h : List.Perm ops1 ops2) :
    ops1.Pairwise opsCompatible → ∀ m : DocMap, importOps m ops1 = importOps m ops2 := by
  induction h with
  | nil => exact fun _ _ => rfl
  | cons x p ih =>
    intro hp m
    simpa [importOps] using ih (List.pairwise_cons.mp hp).2 (importOp m x)
  | swap x y l =>
    intro hp m
    have hyx : opsCompatible y x := (List.pairwise_cons.mp hp).1 x (List.mem_cons_self x l)
    simp only [importOps, List.foldl_cons]
    rw [importOp_comm hyx]
  | trans p1 _ ih1 ih2 =>
    intro hp m
    exact (ih1 hp m).trans
      (ih2 ((p1.pairwise_iff fun h => opsCompatible_symm h).mp hp) m)

/-- C1: two replicas that merge the same well-formed operation set in any two
arrival orders converge to the identical document state, and re-applying an
already-applied operation leaves the document state unchanged (commutativity
and idempotence of merge). -/
theorem merge_converges_and_idempotent (m d : DocMap) (ops1 ops2 : List Operation)
    (o : Operation) (h : List.Perm ops1 ops2) (hp : ops1.Pairwise opsCompatible) :
    importOps m ops1 = importOps m ops2 ∧ importOp (importOp d o) o = importOp d o :=
  ⟨importOps_perm h hp m, importOp_idem d o⟩

/-- C1 witness: the convergence theorem applied to two concurrent writes to
the same key, delivered in both orders. -/
theorem merge_converges_and_idempotent_witness :
    List.Perm [opA, opB] [opB, opA] ∧ ([opA, opB].Pairwise opsCompatible) ∧
    (importOps emptyDoc [opA, opB] = importOps emptyDoc [opB, opA] ∧
      importOp (importOp emptyDoc opA) opA = importOp emptyDoc opA) :=
  ⟨List.Perm.swap opB opA [], by decide,
    merge_converges_and_idempotent emptyDoc emptyDoc [opA, opB] [opB, opA] opA
      (List.Perm.swap opB opA []) (by decide)⟩

theorem docSubscriber_host_of_mem (schema : LiveFields) (s : SyncState) (k : String)
    (h : (schema.lookup k).isSome) :
    (docSubscriber schema s).host k = docGet s.rootMap k := by
  simp [docSubscriber, h]

theorem syncReaction_fixed (schema : LiveFields) (s : SyncState) (k : String)
    (h : ∀ key, (schema.lookup key).isSome → s.host key = docGet s.rootMap key) :
    syncReaction schema s k = s := by
  cases hlk : schema.lookup k with
  | none => simp [syncReaction, hlk]
  | some spec =>
    have hk : s.host k = docGet s.rootMap k := h k (by simp [hlk])
    simp [syncReaction, hlk, hk]

theorem applyRemote_host_merged (schema : LiveFields) (s : SyncState)
    (ops : List Operation) (k : String) (h : (schema.lookup k).isSome) :
    (applyRemote schema s ops).host k = docGet (applyRemote schema s ops).rootMap k := by
  simp [applyRemote, docSubscriber, h]

theorem applyRemote_fixed (schema : LiveFields) (s : SyncState) (ops : List Operation)
    (k : String) :
    syncReaction schema (applyRemote schema s ops) k = applyRemote schema s ops := by
  apply syncReaction_fixed
  intro key hkey
  simp [applyRemote, docSubscriber, hkey]

theorem syncReaction_stable_at (schema : LiveFields) (s : SyncState) (key : String)
    (h : s.host key = docGet s.rootMap key) : syncReaction schema s key = s := by
  cases hlk : schema.lookup key with
  | none => simp [syncReaction, hlk]
  | some spec => simp [syncReaction, hlk, h]

theorem syncReaction_idem (schema : LiveFields) (s : SyncState) (key : String) :
    syncReaction schema (syncReaction schema s key) key = syncReaction schema s key := by
  cases hlk : schema.lookup key with
  | none => simp [syncReaction, hlk]
  | some spec =>
    by_cases hg : docGet s.rootMap key = s.host key
    · simp [syncReaction, hlk, hg]
    · have heq : syncReaction schema s key =
          if commitOrigin spec = "local" then commitState s key (commitOrigin spec)
          else docSubscriber schema (commitState s key (commitOrigin spec)) := by
        simp [syncReaction, hlk, hg]
      rw [heq]
      by_cases htr : commitOrigin spec = "local"
      · rw [if_pos htr]
        exact syncReaction_stable_at schema _ key (by simp [commitState, docGet])
      · rw [if_neg htr]
        exact syncReaction_stable_at schema _ key
          (by simp [docSubscriber, commitState, docGet, hlk])

theorem localWrite_fixed (schema : LiveFields) (s : SyncState) (key : String)
    (v : LiveValue) :
    syncReaction schema (localWrite schema s key v) key = localWrite schema s key v :=
  syncReaction_idem schema { s with host := fun k => if k = key then v else s.host k } key

/-- C4: the bidirectional binding reaches a fixed point after every single
write: a remote-applied operation batch lands in the host fields (the host
then reads the merged root-map value) and appends only `remote`-origin
entries, without being re-captured by the write reaction as a new operation;
and the local-write reaction does not re-fire a commit for the value it just
wrote. -/
theorem binding_no_feedback (schema : LiveFields) (s : SyncState) (ops : List Operation)
    (k k2 : String) (v : LiveValue) (hk : (schema.lookup k).isSome) :
    syncReaction schema (applyRemote schema s ops) k = applyRemote schema s ops ∧
    (applyRemote schema s ops).host k = docGet (applyRemote schema s ops).rootMap k ∧
    (applyRemote schema s ops).log = s.log ++ ops.map (fun o => { o with origin := "remote" }) ∧
    syncReaction schema (localWrite schema s k2 v) k2 = localWrite schema s k2 v :=
  ⟨applyRemote_fixed schema s ops k, applyRemote_host_merged schema s ops k hk, rfl,
    localWrite_fixed schema s k2 v⟩

/-- C4 witness: the fixed point at a concrete remote batch and local write on
the HpTracker schema. -/
theorem binding_no_feedback_witness :
    (hpSchema.lookup "current").isSome ∧
    (syncReaction hpSchema (applyRemote hpSchema s0 [opA]) "current" =
        applyRemote hpSchema s0 [opA] ∧
      (applyRemote hpSchema s0 [opA]).host "current" =
        docGet (applyRemote hpSchema s0 [opA]).rootMap "current" ∧
      (applyRemote hpSchema s0 [opA]).log =
        s0.log ++ [opA].map (fun o => { o with origin := "remote" }) ∧
      syncReaction hpSchema (localWrite hpSchema s0 "name" (.vStr "y")) "name" =
        localWrite hpSchema s0 "name" (.vStr "y")) :=
  ⟨by decide, binding_no_feedback hpSchema s0 [opA] "current" "name" (.vStr "y") (by decide)⟩

theorem localWrite_host_only (schema : LiveFields) (s : SyncState) (key : String)
    (v : LiveValue) (h : docGet s.rootMap key = v) :
    localWrite schema s key v =
      { s with host := fun k => if k = key then v else s.host k } := by
  unfold localWrite
  cases hlk : schema.lookup key with
  | none => simp [syncReaction, hlk]
  | some spec => simp [syncReaction, hlk, h]

/-- C9: writing the value a field's document register already holds is a
no-op at the document level — the reaction returns before committing, so the
log, root map and outbox are untouched (only the MobX field assignment
itself happens), and writing the current value twice is indistinguishable
from writing it once. -/
theorem redundant_write_noop (schema : LiveFields) (s : SyncState) (key : String)
    (v : LiveValue) (h : docGet s.rootMap key = v) :
    localWrite schema s key v =
      { s with host := fun k => if k = key then v else s.host k } ∧
    (localWrite schema s key v).log = s.log ∧
    (localWrite schema s key v).rootMap = s.rootMap ∧
    (localWrite schema s key v).outbox = s.outbox ∧
    localWrite schema (localWrite schema s key v) key v = localWrite schema s key v := by
  have hmain := localWrite_host_only schema s key v h
  refine ⟨hmain, by rw [hmain], by rw [hmain], by rw [hmain], ?_⟩
  rw [hmain]
  have h2 : docGet ({ s with host := fun k => if k = key then v else s.host k } :
      SyncState).rootMap key = v := h
  rw [localWrite_host_only schema _ key v h2]
  congr 1
  funext k
  by_cases hk : k = key <;> simp [hk]

/-- C9 witness: a concrete redundant write — the register already holds the
written value. -/
theorem redundant_write_noop_witness :
    docGet (applyRemote hpSchema s0 [opA]).rootMap "current" = .vNum 1 ∧
    (localWrite hpSchema (applyRemote hpSchema s0 [opA]) "current" (.vNum 1) =
        { applyRemote hpSchema s0 [opA] with
          host := fun k =>
            if k = "current" then .vNum 1 else (applyRemote hpSchema s0 [opA]).host k } ∧
      (localWrite hpSchema (applyRemote hpSchema s0 [opA]) "current" (.vNum 1)).log =
        (applyRemote hpSchema s0 [opA]).log ∧
      (localWrite hpSchema (applyRemote hpSchema s0 [opA]) "current" (.vNum 1)).rootMap =
        (applyRemote hpSchema s0 [opA]).rootMap ∧
      (localWrite hpSchema (applyRemote hpSchema s0 [opA]) "current" (.vNum 1)).outbox =
        (applyRemote hpSchema s0 [opA]).outbox ∧
      localWrite hpSchema
          (localWrite hpSchema (applyRemote hpSchema s0 [opA]) "current" (.vNum 1))
          "current" (.vNum 1) =
        localWrite hpSchema (applyRemote hpSchema s0 [opA]) "current" (.vNum 1)) :=
  ⟨by decide,
    redundant_write_noop hpSchema (applyRemote hpSchema s0 [opA]) "current" (.vNum 1)
      (by decide)⟩

theorem syncReaction_commit_log (schema : LiveFields) (s : SyncState) (key : String)
    (spec : FieldSpec) (h1 : schema.lookup key = some spec)
    (h2 : docGet s.rootMap key ≠ s.host key) :
    (syncReaction schema s key).log =
      s.log ++ [⟨key, s.host key, commitOrigin spec, s.clock, s.author⟩] := by
  by_cases htr : commitOrigin spec = "local" <;>
    simp [syncReaction, h1, h2, htr, commitState, docSubscriber]

theorem localWrite_commit_log (schema : LiveFields) (s : SyncState) (key : String)
    (v : LiveValue) (spec : FieldSpec) (h1 : schema.lookup key = some spec)
    (h2 : docGet s.rootMap key ≠ v) :
    (localWrite schema s key v).log =
      s.log ++ [⟨key, v, commitOrigin spec, s.clock, s.author⟩] := by
  unfold localWrite
  rw [syncReaction_commit_log schema _ key spec h1 (by simpa using h2)]
  simp

/-- C2 counterexample: `round` is declared with undo excluded
(`transient: true`), yet a local write to it produces an operation tagged
`transient` — not `no-undo` as the claim states. -/
theorem write_origin_counterexample :
    hpSchema.lookup "round" = some ⟨.vNum 1, false, true⟩ ∧
    (localWrite hpSchema s0 "round" (.vNum 2)).log.map Operation.origin = ["transient"] ∧
    ("transient" : String) ≠ "no-undo" :=
  ⟨by decide, by decide, by decide⟩

/-- C2 amended: every local write to an undoable (non-transient) synced field
commits an Operation tagged `origin=local`, every local write to a field
declared `transient: true` (undo-excluded) commits one tagged
`origin=transient`, and the undo manager's next target is always an
operation whose origin matches neither excluded prefix — among the origins
the system produces, exactly the `local`-origin operations on undoable
fields. -/
theorem write_origin_tags_amended (schema : LiveFields) (s : SyncState) (key : String)
    (v : LiveValue) (spec : FieldSpec) (log : List Operation) (o : Operation)
    (h1 : schema.lookup key = some spec) (h2 : docGet s.rootMap key ≠ v)
    (h3 : undoTarget log = some o)
    (h4 : o.origin = "local" ∨ o.origin = "transient" ∨ o.origin = "remote") :
    (localWrite schema s key v).log =
      s.log ++ [⟨key, v, commitOrigin spec, s.clock, s.author⟩] ∧
    commitOrigin spec = (if spec.transient then "transient" else "local") ∧
    originExcluded o.origin = false ∧
    o.origin = "local" := by
  have hno : originExcluded o.origin = false := by
    have := List.find?_some h3
    simpa using this
  refine ⟨localWrite_commit_log schema s key v spec h1 h2, rfl, hno, ?_⟩
  rcases h4 with h | h | h
  · exact h
  · rw [h] at hno; exact absurd hno (by decide)
  · rw [h] at hno; exact absurd hno (by decide)

/-- C2 witness: the amended tagging facts at a concrete schema, state and
log. -/
theorem write_origin_tags_amended_witness :
    hpSchema.lookup "current" = some ⟨.vNum 45, false, false⟩ ∧
    docGet s0.rootMap "current" ≠ .vNum 30 ∧
    undoTarget [cOp] = some cOp ∧ cOp.origin = "local" ∧
    ((localWrite hpSchema s0 "current" (.vNum 30)).log =
        s0.log ++ [⟨"current", .vNum 30, commitOrigin ⟨.vNum 45, false, false⟩,
          s0.clock, s0.author⟩] ∧
      commitOrigin ⟨.vNum 45, false, false⟩ =
        (if (⟨.vNum 45, false, false⟩ : FieldSpec).transient then "transient" else "local") ∧
      originExcluded cOp.origin = false ∧
      cOp.origin = "local") :=
  ⟨by decide, by decide, by decide, rfl,
    write_origin_tags_amended hpSchema s0 "current" (.vNum 30) ⟨.vNum 45, false, false⟩
      [cOp] cOp (by decide) (by decide) (by decide) (Or.inl rfl)⟩

/-- C3 counterexample: a write in a viewer permission context
(`isReadOnly = true`) to the shared field `name` is not rejected — no
`PermissionDeniedError` path exists in `setupSync` — and the operation does
appear in the operation log. -/
theorem permission_rejection_counterexample :
    sViewer.isReadOnly = true ∧
    (localWrite hpSchema sViewer "name" (.vStr "x")).log =
      [⟨"name", .vStr "x", "local", 0, 7⟩] :=
  ⟨rfl, by decide⟩

/-- C3 amended: `setupSync` performs no local permission check — a local
write that changes a synced field's value commits an Operation into the log
regardless of the permission flag (`isReadOnly` is advisory, used by the UI;
per the architecture notes, `shared` validation is a relay-side
responsibility). -/
theorem no_local_permission_check (schema : LiveFields) (s : SyncState) (key : String)
    (v : LiveValue) (spec : FieldSpec) (b : Bool)
    (h1 : schema.lookup key = some spec) (h2 : docGet s.rootMap key ≠ v) :
    (localWrite schema { s with isReadOnly := b } key v).log =
      s.log ++ [⟨key, v, commitOrigin spec, s.clock, s.author⟩] :=
  localWrite_commit_log schema { s with isReadOnly := b } key v spec h1 h2

/-- C3 witness: the amended no-permission-check fact at a viewer's state. -/
theorem no_local_permission_check_witness :
    hpSchema.lookup "name" = some ⟨.vStr "Unnamed", true, false⟩ ∧
    docGet s0.rootMap "name" ≠ .vStr "x" ∧
    (localWrite hpSchema { s0 with isReadOnly := true } "name" (.vStr "x")).log =
      s0.log ++ [⟨"name", .vStr "x", commitOrigin ⟨.vStr "Unnamed", true, false⟩,
        s0.clock, s0.author⟩] :=
  ⟨by decide, by decide,
    no_local_permission_check hpSchema s0 "name" (.vStr "x")
      ⟨.vStr "Unnamed", true, false⟩ true (by decide) (by decide)⟩

theorem mem_mergeIn (log : List Operation) (o x : Operation) (h : o ∈ log) :
    o ∈ mergeIn log x := by
  unfold mergeIn
  split
  · exact h
  · exact List.mem_append_left _ h

theorem mem_mergeIn_self (log : List Operation) (o : Operation) : o ∈ mergeIn log o := by
  unfold mergeIn
  split
  · assumption
  · exact List.mem_append_right _ (List.mem_singleton.mpr rfl)

theorem mem_foldl_mergeIn_of_mem_init :
    ∀ (ops : List Operation) (log : List Operation) (o : Operation),
      o ∈ log → o ∈ ops.foldl mergeIn log := by
  intro ops
  induction ops with
  | nil => exact fun _ _ h => h
  | cons x t ih => exact fun log o h => ih _ o (mem_mergeIn log o x h)

theorem mem_foldl_mergeIn :
    ∀ (ops : List Operation) (log : List Operation) (o : Operation),
      o ∈ ops → o ∈ ops.foldl mergeIn log := by
  intro ops
  induction ops with
  | nil => intro _ o h; cases h
  | cons x t ih =>
    intro log o h
    rcases List.mem_cons.mp h with h | h
    · subst h
      exact mem_foldl_mergeIn_of_mem_init t _ o (mem_mergeIn_self log o)
    · exact ih _ o h

theorem nodup_mergeIn (log : List Operation) (x : Operation) (h : log.Nodup) :
    (mergeIn log x).Nodup := by
  unfold mergeIn
  split
  · exact h
  · next hx =>
    simp only [List.nodup_append, List.nodup_singleton, true_and]
    refine ⟨h, ?_⟩
    intro a ha hax
    rw [List.mem_singleton] at hax
    exact hx (hax ▸ ha)

theorem nodup_foldl_mergeIn :
    ∀ (ops : List Operation) (log : List Operation), log.Nodup →
      (ops.foldl mergeIn log).Nodup := by
  intro ops
  induction ops with
  | nil => exact fun _ h => h
  | cons x t ih => exact fun log h => ih _ (nodup_mergeIn log x h)

theorem syncReaction_outbox (schema : LiveFields) (s : SyncState) (key : String) :
    (syncReaction schema s key).outbox = s.outbox := by
  unfold syncReaction
  split
  · rfl
  · split
    · rfl
    · split <;> rfl

theorem localWrite_outbox (schema : LiveFields) (s : SyncState) (key : String)
    (v : LiveValue) : (localWrite schema s key v).outbox = s.outbox :=
  syncReaction_outbox schema _ key

/-- C5: a local write performed while the connection is down sends nothing at
the time (the document itself is the buffer), `ws.onopen` after reconnect
re-sends the whole document as one snapshot, after which every logged
operation — in particular the ones issued offline — is present at the relay
exactly once; a broadcast invoked while disconnected sends nothing and is
not buffered anywhere for replay (reconnect relays no broadcast message). -/
theorem offline_ops_buffered_replayed (schema : LiveFields)
    (handlers : List BroadcastDecl) (s : SyncState) (r : RelayState)
    (key bkey : String) (v : LiveValue) (args : List LiveValue) (o : Operation)
    (hdisc : s.connected = false) (hnod : r.docOps.Nodup)
    (ho : o ∈ (localWrite schema s key v).log) :
    (localWrite schema s key v).outbox = s.outbox ∧
    (reconnect (localWrite schema s key v) r).1.outbox =
      s.outbox ++ [.loroSnapshot (localWrite schema s key v).log] ∧
    (reconnect (localWrite schema s key v) r).2.docOps.count o = 1 ∧
    (reconnect (localWrite schema s key v) r).2.relayed = r.relayed ∧
    (invokeBroadcast handlers s bkey args).outbox = s.outbox := by
  have hob := localWrite_outbox schema s key v
  refine ⟨hob, ?_, ?_, rfl, ?_⟩
  · simp [reconnect, hob]
  · exact List.count_eq_one_of_mem (nodup_foldl_mergeIn _ _ hnod)
      (mem_foldl_mergeIn _ _ o ho)
  · cases hf : handlers.find? fun d => d.key == bkey with
    | none => simp [invokeBroadcast, hf]
    | some d => simp [invokeBroadcast, hf, hdisc]

/-- C5 witness: an offline write to `current`, then reconnect against an
empty relay room. -/
theorem offline_ops_buffered_replayed_witness :
    sOffline.connected = false ∧ emptyRelay.docOps.Nodup ∧
    (⟨"current", .vNum 30, "local", 0, 7⟩ : Operation) ∈
      (localWrite hpSchema sOffline "current" (.vNum 30)).log ∧
    ((localWrite hpSchema sOffline "current" (.vNum 30)).outbox = sOffline.outbox ∧
      (reconnect (localWrite hpSchema sOffline "current" (.vNum 30)) emptyRelay).1.outbox =
        sOffline.outbox ++
          [.loroSnapshot (localWrite hpSchema sOffline "current" (.vNum 30)).log] ∧
      (reconnect (localWrite hpSchema sOffline "current" (.vNum 30)) emptyRelay).2.docOps.count
          (⟨"current", .vNum 30, "local", 0, 7⟩ : Operation) = 1 ∧
      (reconnect (localWrite hpSchema sOffline "current" (.vNum 30)) emptyRelay).2.relayed =
        emptyRelay.relayed ∧
      (invokeBroadcast hpHandlers sOffline "ping" []).outbox = sOffline.outbox) :=
  ⟨rfl, by decide, by decide,
    offline_ops_buffered_replayed hpSchema hpHandlers sOffline emptyRelay "current" "ping"
      (.vNum 30) [] ⟨"current", .vNum 30, "local", 0, 7⟩ rfl (by decide) (by decide)⟩

/-- C6: invoking a declared broadcast never touches the document — the
operation log, root map and clock are unchanged — while the local handler
runs against host state; this holds in every connection state (zero
connected peers included) and has no failure path. -/
theorem broadcast_never_persisted (handlers : List BroadcastDecl) (s : SyncState)
    (key : String) (args : List LiveValue) (d : BroadcastDecl)
    (hd : handlers.find? (fun b => b.key == key) = some d) :
    (invokeBroadcast handlers s key args).log = s.log ∧
    (invokeBroadcast handlers s key args).rootMap = s.rootMap ∧
    (invokeBroadcast handlers s key args).clock = s.clock ∧
    (invokeBroadcast handlers s key args).host = d.handler args s.host := by
  simp only [invokeBroadcast, hd]
  split <;> exact ⟨rfl, rfl, rfl, rfl⟩

/-- C6 witness: `ping` invoked while disconnected (zero peers): handler runs,
document untouched. -/
theorem broadcast_never_persisted_witness :
    hpHandlers.find? (fun b => b.key == "ping") = some pingDecl ∧
    ((invokeBroadcast hpHandlers sOffline "ping" [.vNum 9]).log = sOffline.log ∧
      (invokeBroadcast hpHandlers sOffline "ping" [.vNum 9]).rootMap = sOffline.rootMap ∧
      (invokeBroadcast hpHandlers sOffline "ping" [.vNum 9]).clock = sOffline.clock ∧
      (invokeBroadcast hpHandlers sOffline "ping" [.vNum 9]).host =
        pingDecl.handler [.vNum 9] sOffline.host) :=
  ⟨rfl, broadcast_never_persisted hpHandlers sOffline "ping" [.vNum 9] pingDecl rfl⟩

/-- C7: invoking a declared broadcast runs its handler synchronously against
local state and enqueues exactly one serialized message when the socket is
open, while an incoming broadcast message runs the same raw handler with the
received args only — nothing is re-sent and the document log is untouched. -/
theorem broadcast_invoke_and_receive (schema : LiveFields)
    (handlers : List BroadcastDecl) (s : SyncState) (key : String)
    (args : List LiveValue) (d : BroadcastDecl) (hconn : s.connected = true)
    (hd : handlers.find? (fun b => b.key == key) = some d) :
    (invokeBroadcast handlers s key args).host = d.handler args s.host ∧
    (invokeBroadcast handlers s key args).outbox = s.outbox ++ [.broadcastMsg key args] ∧
    (handleMessage schema handlers s (.broadcastMsg key args)).host =
      d.handler args s.host ∧
    (handleMessage schema handlers s (.broadcastMsg key args)).outbox = s.outbox ∧
    (handleMessage schema handlers s (.broadcastMsg key args)).log = s.log := by
  refine ⟨?_, ?_, ?_, ?_, ?_⟩ <;> simp [invokeBroadcast, handleMessage, hd, hconn]

/-- C7 witness: `ping` invoked and received on an open connection. -/
theorem broadcast_invoke_and_receive_witness :
    s0.connected = true ∧
    hpHandlers.find? (fun b => b.key == "ping") = some pingDecl ∧
    ((invokeBroadcast hpHandlers s0 "ping" [.vNum 3]).host =
        pingDecl.handler [.vNum 3] s0.host ∧
      (invokeBroadcast hpHandlers s0 "ping" [.vNum 3]).outbox =
        s0.outbox ++ [.broadcastMsg "ping" [.vNum 3]] ∧
      (handleMessage hpSchema hpHandlers s0 (.broadcastMsg "ping" [.vNum 3])).host =
        pingDecl.handler [.vNum 3] s0.host ∧
      (handleMessage hpSchema hpHandlers s0 (.broadcastMsg "ping" [.vNum 3])).outbox =
        s0.outbox ∧
      (handleMessage hpSchema hpHandlers s0 (.broadcastMsg "ping" [.vNum 3])).log =
        s0.log) :=
  ⟨rfl, rfl,
    broadcast_invoke_and_receive hpSchema hpHandlers s0 "ping" [.vNum 3] pingDecl rfl rfl⟩

theorem perm_insertIdx_cons {α : Type} (a : α) :
    ∀ (n : Nat) (l : List α), n ≤ l.length → List.Perm (l.insertIdx n a) (a :: l) := by
  intro n
  induction n with
  | zero => intro l _; simp
  | succ n ih =>
    intro l hl
    cases l with
    | nil => simp at hl
    | cons x t =>
      simp only [List.insertIdx_succ_cons]
      have h1 : List.Perm (t.insertIdx n a) (a :: t) := ih t (by simpa using hl)
      exact (h1.cons x).trans (List.Perm.swap a x t)

theorem perm_cons_eraseIdx {α : Type} :
    ∀ (l : List α) (i : Nat) (e : α), l[i]? = some e →
      List.Perm (e :: l.eraseIdx i) l := by
  intro l
  induction l with
  | nil => intro i e h; simp at h
  | cons x t ih =>
    intro i e h
    cases i with
    | zero =>
      simp only [List.getElem?_cons_zero, Option.some.injEq] at h
      subst h
      simp [List.eraseIdx]
    | succ i =>
      have h2 : t[i]? = some e := by simpa using h
      have h3 := ih i e h2
      simp only [List.eraseIdx_cons_succ]
      exact (List.Perm.swap e x _).symm.trans (h3.cons x)

/-- C8: `move(fromIndex, toIndex)` emits exactly one reposition operation —
never a remove/insert pair — and the resulting collection is a permutation
of the original: every entry keeps its id and sub-document contents, only
positions change. -/
theorem move_single_reposition (l : List LiveEntry) (fromIdx toIdx : Nat)
    (e : LiveEntry) (hf : l[fromIdx]? = some e)
    (ht : toIdx ≤ (l.eraseIdx fromIdx).length) :
    (moveEntry l fromIdx toIdx).2 = [CollOp.reposition fromIdx toIdx] ∧
    List.Perm (moveEntry l fromIdx toIdx).1 l ∧
    List.Perm ((moveEntry l fromIdx toIdx).1.map LiveEntry.id)
      (l.map LiveEntry.id) := by
  have hperm : List.Perm ((l.eraseIdx fromIdx).insertIdx toIdx e) l :=
    (perm_insertIdx_cons e toIdx _ ht).trans (perm_cons_eraseIdx l fromIdx e hf)
  refine ⟨?_, ?_, ?_⟩
  · simp [moveEntry, hf]
  · simpa [moveEntry, hf] using hperm
  · simpa [moveEntry, hf] using hperm.map LiveEntry.id

/-- C8 witness: `move(0,2)` on a 3-entry collection yields `[b, c, a]` — one
reposition operation, same entries, same ids, same sub-documents. -/
theorem move_single_reposition_witness :
    [entryA, entryB, entryC][0]? = some entryA ∧
    2 ≤ ([entryA, entryB, entryC].eraseIdx 0).length ∧
    (moveEntry [entryA, entryB, entryC] 0 2).1 = [entryB, entryC, entryA] ∧
    ((moveEntry [entryA, entryB, entryC] 0 2).2 = [CollOp.reposition 0 2] ∧
      List.Perm (moveEntry [entryA, entryB, entryC] 0 2).1 [entryA, entryB, entryC] ∧
      List.Perm ((moveEntry [entryA, entryB, entryC] 0 2).1.map LiveEntry.id)
        ([entryA, entryB, entryC].map LiveEntry.id)) :=
  ⟨by decide, by decide, by decide,
    move_single_reposition [entryA, entryB, entryC] 0 2 entryA (by decide) (by decide)⟩

/-- C10: in root mode with no server configured, `openConnection` dials
`ws://localhost:1999`; with no `docId` prop, the room id is the freshly
generated UUID, so the mount joins a brand-new room (one not yet in use)
rather than failing or reusing an existing room. -/
theorem default_connection_fresh_room (config : LiveConfig) (props : HostProps)
    (freshUuid : String) (rooms : List String)
    (h1 : config.server = none) (h2 : props.docId = none) (h3 : freshUuid ∉ rooms) :
    connectionServer config = "ws://localhost:1999" ∧
    connectionDocId props freshUuid = freshUuid ∧
    connectionUrl config props freshUuid =
      "ws://localhost:1999/parties/main/" ++ freshUuid ∧
    connectionDocId props freshUuid ∉ rooms := by
  refine ⟨?_, ?_, ?_, ?_⟩ <;>
    simp [connectionServer, connectionUrl, connectionDocId, h1, h2, h3]

/-- C10 witness: no server config, no docId prop, a fresh UUID unused by the
existing rooms. -/
theorem default_connection_fresh_room_witness :
    (⟨none⟩ : LiveConfig).server = none ∧ (⟨none⟩ : HostProps).docId = none ∧
    ("9f1c-uuid" ∉ (["board-1", "board-2"] : List String)) ∧
    (connectionServer ⟨none⟩ = "ws://localhost:1999" ∧
      connectionDocId ⟨none⟩ "9f1c-uuid" = "9f1c-uuid" ∧
      connectionUrl ⟨none⟩ ⟨none⟩ "9f1c-uuid" =
        "ws://localhost:1999/parties/main/" ++ "9f1c-uuid" ∧
      connectionDocId ⟨none⟩ "9f1c-uuid" ∉ (["board-1", "board-2"] : List String)) :=
  ⟨rfl, rfl, by decide,
    default_connection_fresh_room ⟨none⟩ ⟨none⟩ "9f1c-uuid" ["board-1", "board-2"]
      rfl rfl (by decide)⟩

end MantleLive
